import Mathlib

/-!
Verification development for the mini-scrapper crawler:
URL normalization and path classification (modules/url_utils.py),
business-info extraction and merging (modules/schema_extractor.py),
and the crawl frontier loop (modules/crawler.py).

Strings are modelled by Lean `String`; character-level operations are
implemented over `String.data` (`List Char`) so that proofs can proceed
by list induction.  Python's `urllib.parse` functions (`urlparse`,
`urljoin`, `urlunparse`) are external library collaborators of the
repository; they are modelled here after CPython's documented behaviour
for well-formed http(s) URLs (IPv6-bracket validation and control
character sanitization are not modelled, as no claim depends on them).
-/

/-- Models Python `s.startswith(p)` via character lists. -/
def chStartsWith (s p : String) : Bool :=
  p.data.isPrefixOf s.data

/-- Models Python `s.endswith(p)` via character lists. -/
def chEndsWith (s p : String) : Bool :=
  p.data.reverse.isPrefixOf s.data.reverse

/-- Models Python `s.strip()`: drop leading and trailing whitespace. -/
def pyStrip (s : String) : String :=
  String.mk (((s.data.dropWhile Char.isWhitespace).reverse.dropWhile Char.isWhitespace).reverse)

/-- Models Python `s.rstrip("/")`: drop all trailing slash characters. -/
def rstripSlashes (s : String) : String :=
  String.mk ((s.data.reverse.dropWhile (fun c => c = '/')).reverse)

/-- Split a character list at the first occurrence of `c`:
`some (before, after)` when present, `none` otherwise.
Models Python `s.split(c, 1)` / `s.find(c)` combinations. -/
def splitOnceChar (c : Char) : List Char → Option (List Char × List Char)
  | [] => none
  | a :: t =>
    if a = c then some ([], t)
    else
      match splitOnceChar c t with
      | some (x, y) => some (a :: x, y)
      | none => none

/-- Models Python `s.split(c)` for a single-character separator. -/
def splitChar (c : Char) : List Char → List (List Char)
  | [] => [[]]
  | a :: t =>
    let r := splitChar c t
    if a = c then [] :: r
    else
      match r with
      | [] => [[a]]
      | h :: t2 => (a :: h) :: t2

/-- Models Python `sep.join(parts)` for a single-character separator. -/
def joinChar (c : Char) : List (List Char) → List Char
  | [] => []
  | [x] => x
  | x :: y :: t => x ++ c :: joinChar c (y :: t)

/-- Models Python `s[:n]` (character count; all modelled inputs are ASCII). -/
def strTake (n : Nat) (s : String) : String :=
  String.mk (s.data.take n)

/-- Models Python `s[:-1]`: drop the last character. -/
def strDropLastChar (s : String) : String :=
  String.mk s.data.dropLast

/-- Models `url.split(":")[0]` from `normalize_url`: everything before the
first colon (the whole string when no colon is present). -/
def schemeOf (s : String) : String :=
  String.mk (s.data.takeWhile (fun c => c ≠ ':'))

/-! ## Model of `urllib.parse` (CPython) -/

/-- Characters allowed in a URL scheme after the first (CPython `scheme_chars`). -/
def schemeChars (c : Char) : Bool :=
  c.isAlpha || c.isDigit || c = '+' || c = '-' || c = '.'

/-- Result of `urllib.parse.urlparse`. -/
structure UrlParts where
  scheme : String
  netloc : String
  path : String
  params : String
  query : String
  fragment : String
deriving DecidableEq

/-- Models CPython `urllib.parse.urlsplit(url, scheme=default)`:
extract scheme (lower-cased, first char a letter, remaining chars in
`scheme_chars`), then netloc after a leading `//` up to the first of
`/?#`, then fragment after the first `#`, then query after the first `?`. -/
def urlsplitParts (url0 defaultScheme : String) : UrlParts :=
  let l := url0.data
  -- scheme
  let schemeSplit :=
    match splitOnceChar ':' l with
    | some (a, b) =>
      match a with
      | c :: _ =>
        if c.isAlpha && a.all schemeChars then (a.map Char.toLower, b)
        else (defaultScheme.data, l)
      | [] => (defaultScheme.data, l)
    | none => (defaultScheme.data, l)
  let scheme := schemeSplit.1
  let rest1 := schemeSplit.2
  -- netloc
  let netlocSplit :=
    if ['/', '/'].isPrefixOf rest1 then
      let after := rest1.drop 2
      let nl := after.takeWhile (fun c => c ≠ '/' ∧ c ≠ '?' ∧ c ≠ '#')
      (nl, after.drop nl.length)
    else ([], rest1)
  let netloc := netlocSplit.1
  let rest2 := netlocSplit.2
  -- fragment
  let fragSplit :=
    match splitOnceChar '#' rest2 with
    | some (a, b) => (a, b)
    | none => (rest2, [])
  let rest3 := fragSplit.1
  let frag := fragSplit.2
  -- query
  let querySplit :=
    match splitOnceChar '?' rest3 with
    | some (a, b) => (a, b)
    | none => (rest3, [])
  ⟨String.mk scheme, String.mk netloc, String.mk querySplit.1, "",
   String.mk querySplit.2, String.mk frag⟩

/-- Index of the last occurrence of `c` in `l`, if any (Python `s.rfind(c)`). -/
def lastIdxOf (c : Char) (l : List Char) : Option Nat :=
  match l.reverse.findIdx? (fun x => x = c) with
  | some j => some (l.length - 1 - j)
  | none => none

/-- Models CPython `_splitparams`: split `;params` from the path, searching
for `;` only after the last `/` when the path contains one. -/
def splitParams (path : List Char) : List Char × List Char :=
  let i :=
    match lastIdxOf '/' path with
    | some s =>
      match (path.drop s).findIdx? (fun c => c = ';') with
      | some j => some (s + j)
      | none => none
    | none => path.findIdx? (fun c => c = ';')
  match i with
  | some k => (path.take k, path.drop (k + 1))
  | none => (path, [])

/-- Models CPython `urllib.parse.urlparse(url, scheme=default)`:
`urlsplit` plus splitting `;params` from the path when it contains `;`. -/
def urlparse (url defaultScheme : String) : UrlParts :=
  let p := urlsplitParts url defaultScheme
  if p.path.data.contains ';' then
    let pp := splitParams p.path.data
    { p with path := String.mk pp.1, params := String.mk pp.2 }
  else p

/-- Models CPython `urllib.parse.urlunparse` (via `urlunsplit`). -/
def urlunparse (scheme netloc path params query fragment : String) : String :=
  let url := if params ≠ "" then path ++ ";" ++ params else path
  let url :=
    if netloc ≠ "" ∨ (url ≠ "" ∧ chStartsWith url "//") then
      let u2 := if url ≠ "" ∧ ¬ chStartsWith url "/" then "/" ++ url else url
      "//" ++ netloc ++ u2
    else url
  let url := if scheme ≠ "" then scheme ++ ":" ++ url else url
  let url := if query ≠ "" then url ++ "?" ++ query else url
  let url := if fragment ≠ "" then url ++ "#" ++ fragment else url
  url

/-- CPython `urllib.parse.uses_relative`. -/
def usesRelative : List String :=
  ["", "ftp", "http", "gopher", "nntp", "imap", "wais", "file", "https",
   "shttp", "mms", "prospero", "rtsp", "rtspu", "sftp", "svn", "svn+ssh",
   "ws", "wss"]

/-- CPython `urllib.parse.uses_netloc`. -/
def usesNetloc : List String :=
  ["", "ftp", "http", "gopher", "nntp", "telnet", "imap", "wais", "file",
   "mms", "https", "shttp", "snews", "prospero", "rtsp", "rtspu", "rsync",
   "svn", "svn+ssh", "sftp", "nfs", "git", "git+ssh", "ws", "wss"]

/-- Python `segments[1:-1] = filter(None, segments[1:-1])`: remove empty
strings from all but the first and last positions. -/
def filterMiddle (l : List String) : List String :=
  match l with
  | [] => []
  | [a] => [a]
  | a :: rest =>
    match rest.reverse with
    | [] => [a]
    | z :: mid => a :: ((mid.reverse.filter (fun x => x ≠ "")) ++ [z])

/-- Models CPython `urllib.parse.urljoin(base, url)`. -/
def urljoin (base url : String) : String :=
  if base = "" then url
  else if url = "" then base
  else
    let b := urlparse base ""
    let r := urlparse url b.scheme
    if r.scheme ≠ b.scheme ∨ r.scheme ∉ usesRelative then url
    else
      let useNl := r.scheme ∈ usesNetloc
      if useNl ∧ r.netloc ≠ "" then
        urlunparse r.scheme r.netloc r.path r.params r.query r.fragment
      else
        let netloc := if useNl then b.netloc else r.netloc
        if r.path = "" ∧ r.params = "" then
          urlunparse r.scheme netloc b.path b.params
            (if r.query = "" then b.query else r.query) r.fragment
        else
          let baseParts0 := (splitChar '/' b.path.data).map String.mk
          let baseParts :=
            if baseParts0.getLast? = some "" then baseParts0 else baseParts0.dropLast
          let segments :=
            if chStartsWith r.path "/" then (splitChar '/' r.path.data).map String.mk
            else filterMiddle (baseParts ++ (splitChar '/' r.path.data).map String.mk)
          let resolved := segments.foldl
            (fun acc seg =>
              if seg = ".." then acc.dropLast
              else if seg = "." then acc
              else acc ++ [seg]) ([] : List String)
          let resolved :=
            if segments.getLast? = some "." ∨ segments.getLast? = some ".." then
              resolved ++ [""]
            else resolved
          let joined := String.mk (joinChar '/' (resolved.map String.data))
          let path := if joined = "" then "/" else joined
          urlunparse r.scheme netloc path r.params r.query r.fragment

/-! ## url_utils.py -/

/-- Source: `url_utils.normalize_url`, success path after scheme filtering.
Joins with the base URL, re-parses, drops the fragment via `urlunparse`,
and removes one trailing slash unless the parsed path is the root. -/
def normalizeCore (base_url url : String) : String :=
  let full := urljoin base_url url
  let p := urlparse full ""
  let normalized := urlunparse p.scheme p.netloc p.path p.params p.query ""
  if chEndsWith normalized "/" ∧ 1 < p.path.length then strDropLastChar normalized
  else normalized

/-- Source: `url_utils.normalize_url`. Rejects empty references,
fragment-only references, and non-http(s) schemes, then normalizes.
(The Python `except` branch returning `None` is unreachable in this total
model.) -/
def normalize_url (base_url : String) (url? : Option String) : Option String :=
  match url? with
  | none => none
  | some u0 =>
    if u0 = "" then none
    else
      let url := pyStrip u0
      if url = "" then none
      else if chStartsWith url "#" then none
      else if url.data.contains ':' ∧
              ¬ (chStartsWith url "http://" ∨ chStartsWith url "https://" ∨ chStartsWith url "/") then
        if schemeOf url ≠ "http" ∧ schemeOf url ≠ "https" then none
        else some (normalizeCore base_url url)
      else some (normalizeCore base_url url)

/-- Path normalization shared by `is_path_excluded` and
`contains_priority_path`: `urlparse(url).path`, prefixed with `/` when
missing, with trailing slashes removed except for the bare root. -/
def normalizedPathOf (url : String) : String :=
  let path := (urlparse url "").path
  let path := if chStartsWith path "/" then path else "/" ++ path
  if path = "/" then "/" else rstripSlashes path

/-- Source: `url_utils.is_path_excluded`. A path is excluded when it equals
a normalized exclude pattern or starts with the pattern followed by `/`. -/
def is_path_excluded (url : String) (excludePaths : List String) : Bool :=
  let np := normalizedPathOf url
  excludePaths.any (fun ep =>
    let ne := if ep = "/" then "/" else rstripSlashes ep
    chStartsWith np ne && (np = ne || chStartsWith np (ne ++ "/")))

/-- Source: `url_utils.contains_priority_path`. The literal pattern `/` is
special-cased to match only the exact root; other patterns use
equal-or-followed-by-`/` prefix matching. -/
def contains_priority_path (url : String) (priorityPaths : List String) : Bool :=
  let np := normalizedPathOf url
  if priorityPaths.contains "/" && np = "/" then true
  else priorityPaths.any (fun pp =>
    if pp = "/" then false
    else
      let npp := if pp = "/" then "/" else rstripSlashes pp
      chStartsWith np npp && (np = npp || chStartsWith np (npp ++ "/")))

example : normalize_url "https://a.com" (some "/x/") = some "https://a.com/x" := by decide
example : normalize_url "https://a.com" (some "#frag") = none := by decide
example : normalize_url "https://a.com" (some "mailto:bob@x.com") = none := by decide
example : normalize_url "https://a.com/sub/page" (some "other") = some "https://a.com/sub/other" := by decide
example : normalize_url "https://a.com" (some "https://b.com/y#z") = some "https://b.com/y" := by decide
example : normalize_url "https://a.com" (some "/") = some "https://a.com/" := by decide
example : is_path_excluded "https://a.com/blog/post" ["/blog"] = true := by decide
example : is_path_excluded "https://a.com/blogger" ["/blog"] = false := by decide
example : is_path_excluded "https://a.com/about" ["/"] = false := by decide
example : is_path_excluded "https://a.com/" ["/"] = true := by decide
example : contains_priority_path "https://a.com/" ["/"] = true := by decide
example : contains_priority_path "https://a.com/about" ["/"] = false := by decide
example : contains_priority_path "https://a.com/about/team" ["/about"] = true := by decide

/-! ## schema_extractor.py: business info data model and merge -/

/-- A founder entry as built by `_extract_from_schemas`
(`{"name": ..., "job_title": ..., "email": ...}`). -/
structure Founder where
  name : String
  job_title : String
  email : String
deriving DecidableEq

/-- An address-components dict as built by `_extract_from_schemas`
(`{"street": ..., "city": ..., "state": ..., "zip": ..., "country": ...}`).
As a Python value it always has its five keys, so it is always truthy. -/
structure AddrComp where
  street : String
  city : String
  state : String
  zip : String
  country : String
deriving DecidableEq

/-- The business-info dict shape produced by `extract_business_info` and
accumulated by `merge_business_info`.  `_init_business_info` in crawler.py
omits some of these keys; since `merge_business_info` reads absent keys
through `.get`/`.setdefault` with exactly these empty defaults, a missing
key is equivalent to the empty value and the single full shape models both.
Ratings are floats in Python; merging only compares them, so `ℚ` is an
order-faithful model. `social_media` is an insertion-ordered dict, modelled
as an association list. -/
structure BusinessInfo where
  business_name : String
  description : String
  website : String
  logo : String
  images : List String
  rating : Option ℚ
  review_count : Option Int
  addresses : List String
  address_components : List AddrComp
  areas_served : List String
  hours : String
  phones : List String
  emails : List String
  quote_url : String
  services : List String
  categories : List String
  price_range : String
  payment_methods : List String
  languages : List String
  has_coupon : Bool
  has_emergency : Bool
  is_licensed : Bool
  license_number : String
  founding_date : String
  founders : List Founder
  social_media : List (String × String)
  meta_description : String
  meta_keywords : List String
deriving DecidableEq

/-- The all-empty business info (the initial dict of `extract_business_info`,
and the `.get` defaults seen by `merge_business_info`). -/
def emptyBusinessInfo : BusinessInfo :=
  { business_name := "", description := "", website := "", logo := ""
    images := [], rating := none, review_count := none, addresses := []
    address_components := [], areas_served := [], hours := "", phones := []
    emails := [], quote_url := "", services := [], categories := []
    price_range := "", payment_methods := [], languages := []
    has_coupon := false, has_emergency := false, is_licensed := false
    license_number := "", founding_date := "", founders := []
    social_media := [], meta_description := "", meta_keywords := [] }

/-- One step of the list merge in `merge_business_info`:
`if item and item not in accumulated[key]: accumulated[key].append(item)`. -/
def addUnique {α : Type} (t : α → Bool) [DecidableEq α] (a : List α) (x : α) : List α :=
  if t x = true ∧ x ∉ a then a ++ [x] else a

/-- The list-field merge of `merge_business_info`: append each truthy,
not-yet-present item of the page list. -/
def mergeList {α : Type} (t : α → Bool) [DecidableEq α] (acc l : List α) : List α :=
  l.foldl (addUnique t) acc

/-- Python truthiness for strings: non-empty. -/
def strTruthy (s : String) : Bool := s ≠ ""

/-- The string-field merge of `merge_business_info`: keep the first
non-empty value (`if page_info[key] and not accumulated.get(key)`). -/
def mergeStr (acc new : String) : String :=
  if new ≠ "" ∧ acc = "" then new else acc

/-- One step of `accumulated["social_media"].update(page_info["social_media"])`:
overwrite the value when the key is present, append otherwise. -/
def updateKey (a : List (String × String)) (kv : String × String) : List (String × String) :=
  if kv.1 ∈ a.map Prod.fst then
    a.map (fun p => if p.1 = kv.1 then (p.1, kv.2) else p)
  else a ++ [kv]

/-- Python `dict.update`, modelled on insertion-ordered association lists. -/
def dictUpdate (acc new : List (String × String)) : List (String × String) :=
  new.foldl updateKey acc

/-- One step of the founders merge of `merge_business_info`: add a founder
with a truthy name when no accumulated founder has the same name. -/
def addFounder (a : List Founder) (f : Founder) : List Founder :=
  if f.name ≠ "" ∧ ¬ (a.any fun g => g.name = f.name) then a ++ [f] else a

/-- The founders merge of `merge_business_info`. -/
def mergeFounders (acc l : List Founder) : List Founder :=
  l.foldl addFounder acc

/-- The `rating` merge of `merge_business_info`: keep the maximum, where a
page value replaces the accumulated one only when strictly greater or the
accumulated one is `None`. -/
def mergeMaxQ (acc new : Option ℚ) : Option ℚ :=
  match new with
  | none => acc
  | some x =>
    match acc with
    | none => some x
    | some y => if x > y then some x else some y

/-- The `review_count` merge of `merge_business_info` (same policy over ints). -/
def mergeMaxZ (acc new : Option Int) : Option Int :=
  match new with
  | none => acc
  | some x =>
    match acc with
    | none => some x
    | some y => if x > y then some x else some y

/-- Source: `schema_extractor.merge_business_info`, as a function from the
accumulated profile and the page info to the updated profile (the Python
function mutates `accumulated` in place). Field policies: union with
first-seen order for list fields, first-non-empty for scalar strings,
`dict.update` for `social_media`, dedup-by-name for founders, OR for the
boolean flags, max for `rating`/`review_count`. -/
def merge_business_info (acc page : BusinessInfo) : BusinessInfo :=
  { business_name := mergeStr acc.business_name page.business_name
    description := mergeStr acc.description page.description
    website := mergeStr acc.website page.website
    logo := mergeStr acc.logo page.logo
    images := mergeList strTruthy acc.images page.images
    rating := mergeMaxQ acc.rating page.rating
    review_count := mergeMaxZ acc.review_count page.review_count
    addresses := mergeList strTruthy acc.addresses page.addresses
    address_components := mergeList (fun _ => true) acc.address_components page.address_components
    areas_served := mergeList strTruthy acc.areas_served page.areas_served
    hours := mergeStr acc.hours page.hours
    phones := mergeList strTruthy acc.phones page.phones
    emails := mergeList strTruthy acc.emails page.emails
    quote_url := mergeStr acc.quote_url page.quote_url
    services := mergeList strTruthy acc.services page.services
    categories := mergeList strTruthy acc.categories page.categories
    price_range := mergeStr acc.price_range page.price_range
    payment_methods := mergeList strTruthy acc.payment_methods page.payment_methods
    languages := mergeList strTruthy acc.languages page.languages
    has_coupon := acc.has_coupon || page.has_coupon
    has_emergency := acc.has_emergency || page.has_emergency
    is_licensed := acc.is_licensed || page.is_licensed
    license_number := mergeStr acc.license_number page.license_number
    founding_date := mergeStr acc.founding_date page.founding_date
    founders := mergeFounders acc.founders page.founders
    social_media := dictUpdate acc.social_media page.social_media
    meta_description := mergeStr acc.meta_description page.meta_description
    meta_keywords := mergeList strTruthy acc.meta_keywords page.meta_keywords }

/-- Source: `crawler._is_business_info_complete`: all five required fields
(business_name, phones, addresses, services, hours) are non-empty/truthy. -/
def is_business_info_complete (info : BusinessInfo) : Bool :=
  decide (info.business_name ≠ "") && decide (0 < info.phones.length) &&
  decide (0 < info.addresses.length) && decide (0 < info.services.length) &&
  decide (info.hours ≠ "")

/-- Source: `schema_extractor._normalize_phone`: remove every character
that is neither a digit nor `+` (`re.sub(r'[^\d+]', '', phone)`), then keep
the result only when its length is at least 10. -/
def normalize_phone (phone : String) : String :=
  let cleaned := String.mk (phone.data.filter (fun c => c.isDigit || c = '+'))
  if 10 ≤ cleaned.length then cleaned else ""

example : normalize_phone "(303) 555-0142" = "3035550142" := by decide
example : normalize_phone "555-0142" = "" := by decide
example : normalize_phone "+1 (303) 555-0142" = "+13035550142" := by decide
example : normalize_phone "+123456789" = "+123456789" := by decide

/-! ## schema_extractor._extract_from_html -/

/-- The text/markup mining results consumed by `_extract_from_html`.
BeautifulSoup parsing and the regex/keyword matchers are collaborators;
each field below is the value their corresponding block in the source
would produce on the page: the deduplicated normalized phone matches
capped at 10, the lower-cased email matches capped at 5, the
suffix-stripped `<title>` text, the first resolved logo-selector hit, the
resolved quote/contact anchor target, the identified `(platform, href)`
social links in anchor order, the keyword hit flags, whether the matched
emergency keyword contains "24", the license-number match, and the texts
of address-like tags in document order. Empty string / `false` encode "no
match". -/
structure HtmlSignals where
  textPhones : List String
  textEmails : List String
  title : String
  logoCandidate : String
  quoteCandidate : String
  socialLinks : List (String × String)
  couponHit : Bool
  emergencyHit : Bool
  emergencyKw24 : Bool
  licenseHit : Bool
  licenseNumber : String
  addressTexts : List String
deriving DecidableEq

/-- Source: `schema_extractor._extract_from_html`, over the mined signals.
Phones, emails, business name, logo, quote URL, coupon flag, emergency
flag and license flag are set only when still empty/false; social links
are added whenever the platform key is new; the final address scrape
appends any unseen address-tag text longer than 10 characters with no
emptiness guard. -/
def extract_from_html (sig : HtmlSignals) (info : BusinessInfo) : BusinessInfo :=
  let phones := if info.phones = [] then sig.textPhones else info.phones
  let emails := if info.emails = [] then sig.textEmails else info.emails
  let bname :=
    if info.business_name = "" ∧ sig.title ≠ "" then strTake 100 sig.title
    else info.business_name
  let logoImages :=
    if info.logo = "" ∧ sig.logoCandidate ≠ "" then
      (sig.logoCandidate,
       if sig.logoCandidate ∉ info.images then info.images ++ [sig.logoCandidate]
       else info.images)
    else (info.logo, info.images)
  let quote := if info.quote_url = "" then sig.quoteCandidate else info.quote_url
  let social := sig.socialLinks.foldl
    (fun m pl => if pl.1 ≠ "" ∧ pl.1 ∉ m.map Prod.fst then m ++ [pl] else m)
    info.social_media
  let coupon := if info.has_coupon = false ∧ sig.couponHit then true else info.has_coupon
  let emergencyHours :=
    if info.has_emergency = false ∧ sig.emergencyHit then
      (true, if sig.emergencyKw24 ∧ info.hours = "" then "24/7" else info.hours)
    else (info.has_emergency, info.hours)
  let licensedNum :=
    if info.is_licensed = false ∧ sig.licenseHit then
      (true, if sig.licenseNumber ≠ "" then sig.licenseNumber else info.license_number)
    else (info.is_licensed, info.license_number)
  let addresses := sig.addressTexts.foldl
    (fun a t => if t ≠ "" ∧ 10 < t.length ∧ t ∉ a then a ++ [t] else a)
    info.addresses
  { info with
    phones := phones, emails := emails, business_name := bname
    logo := logoImages.1, images := logoImages.2, quote_url := quote
    social_media := social, has_coupon := coupon
    has_emergency := emergencyHours.1, hours := emergencyHours.2
    is_licensed := licensedNum.1, license_number := licensedNum.2
    addresses := addresses }

/-! ## crawler.py: the crawl frontier loop -/

/-- The per-page data the crawl loop consumes from a successful fetch:
whether `extract_json_ld_schemas` found any schema, the page's extracted
business info (`extract_business_info`, used only when a schema was
found), and the same-crawl link targets from `extract_links` (already
normalized by `normalize_url` inside the link extractor). -/
structure PageData where
  hasSchema : Bool
  info : BusinessInfo
  links : List String
deriving DecidableEq

/-- External collaborators of `scrape_priority_paths`: the page fetcher
(`_fetch_page`, `none` = request error or non-2xx status), the exclusion
classifier (`is_path_excluded` applied to the configured exclude list) and
the domain filter (`is_same_domain` against the start domain). -/
structure CrawlEnv where
  fetch : String → Option PageData
  excluded : String → Bool
  sameDomain : String → Bool

/-- The mutable state of `scrape_priority_paths`, plus three history
fields (`fetched`, `dequeued`, `enqueuedEver`) that record which URLs were
passed to the fetcher, popped from the frontier, and ever placed on the
frontier; they are write-only bookkeeping and never influence control
flow. Display output and the per-category statistics counters are omitted:
they do not affect the loop's behaviour. -/
structure CrawlState where
  visited : List String
  toVisit : List String
  business : BusinessInfo
  pages : Nat
  fetched : List String
  dequeued : List String
  enqueuedEver : List String
deriving DecidableEq

/-- Why the crawl loop stopped. -/
inductive StopReason
  | complete
  | exhaustedIncomplete
  | ceiling
  | fuelOut
deriving DecidableEq

/-- The link-queueing loop at the end of each crawl step: drop off-domain
links, drop links already visited or queued, mark excluded links visited,
and append the rest to the frontier. -/
def enqueueLinks (env : CrawlEnv) (s : CrawlState) : List String → CrawlState
  | [] => s
  | link :: rest =>
    if ¬ env.sameDomain link then enqueueLinks env s rest
    else if link ∈ s.visited ∨ link ∈ s.toVisit then enqueueLinks env s rest
    else if env.excluded link then
      enqueueLinks env { s with visited := s.visited ++ [link] } rest
    else
      enqueueLinks env
        { s with toVisit := s.toVisit ++ [link],
                 enqueuedEver := s.enqueuedEver ++ [link] } rest

/-- Source: the `while` loop of `crawler.scrape_priority_paths`, with a
fuel parameter bounding the number of iterations (the Python loop always
terminates because every iteration either consumes a frontier entry
without adding any or increments the fetched-page counter).  Returns the
final state and the stop reason. -/
def crawlLoop (env : CrawlEnv) (maxPages : Nat) : Nat → CrawlState → CrawlState × StopReason
  | 0, s => (s, StopReason.fuelOut)
  | fuel + 1, s =>
    if ¬ s.pages < maxPages then (s, StopReason.ceiling)
    else
      match s.toVisit with
      | [] =>
        (s, if is_business_info_complete s.business then StopReason.complete
            else StopReason.exhaustedIncomplete)
      | url :: rest =>
        let s1 : CrawlState := { s with toVisit := rest, dequeued := s.dequeued ++ [url] }
        if url ∈ s.visited then crawlLoop env maxPages fuel s1
        else
          let s2 : CrawlState := { s1 with visited := s1.visited ++ [url] }
          if env.excluded url then crawlLoop env maxPages fuel s2
          else
            let s2f : CrawlState := { s2 with fetched := s2.fetched ++ [url] }
            match env.fetch url with
            | none => crawlLoop env maxPages fuel s2f
            | some page =>
              let s3 : CrawlState := { s2f with pages := s2f.pages + 1 }
              let s4 : CrawlState :=
                if page.hasSchema then
                  { s3 with business := merge_business_info s3.business page.info }
                else s3
              if is_business_info_complete s4.business ∧ s4.toVisit = [] then
                (s4, StopReason.complete)
              else crawlLoop env maxPages fuel (enqueueLinks env s4 page.links)

/-- The initial state of `scrape_priority_paths`: the frontier seeded with
the homepage, everything else empty. -/
def initCrawlState (homepage : String) : CrawlState :=
  { visited := [], toVisit := [homepage], business := emptyBusinessInfo
    pages := 0, fetched := [], dequeued := [], enqueuedEver := [homepage] }

/-! ## Merge algebra lemmas -/

theorem mergeList_cons {α : Type} (t : α → Bool) [DecidableEq α] (acc : List α) (y : α) (ys : List α) :
    mergeList t acc (y :: ys) = mergeList t (addUnique t acc y) ys := rfl

theorem mem_addUnique {α : Type} (t : α → Bool) [DecidableEq α] {a : List α} {x : α} (y : α)
    (hx : x ∈ a) : x ∈ addUnique t a y := by
  unfold addUnique
  split
  · exact List.mem_append_left _ hx
  · exact hx

theorem mem_mergeList_of_mem {α : Type} (t : α → Bool) [DecidableEq α] {acc : List α} {x : α}
    (l : List α) (hx : x ∈ acc) : x ∈ mergeList t acc l := by
  induction l generalizing acc with
  | nil => exact hx
  | cons y ys ih => exact ih (mem_addUnique t y hx)

theorem mem_mergeList_self {α : Type} (t : α → Bool) [DecidableEq α] {l : List α} {x : α}
    (acc : List α) (hx : x ∈ l) (ht : t x = true) : x ∈ mergeList t acc l := by
  induction l generalizing acc with
  | nil => cases hx
  | cons y ys ih =>
    rcases List.mem_cons.mp hx with h | h
    · subst h
      by_cases hmem : x ∈ acc
      · exact mem_mergeList_of_mem t ys (mem_addUnique t x hmem)
      · refine mem_mergeList_of_mem t ys ?_
        unfold addUnique
        rw [if_pos ⟨ht, hmem⟩]
        exact List.mem_append_right _ (List.mem_singleton.mpr rfl)
    · exact ih _ h

theorem mergeList_eq_self {α : Type} (t : α → Bool) [DecidableEq α] {acc l : List α}
    (h : ∀ x ∈ l, t x = true → x ∈ acc) : mergeList t acc l = acc := by
  induction l with
  | nil => rfl
  | cons y ys ih =>
    have hy : addUnique t acc y = acc := by
      unfold addUnique
      split
      · next hc => exact absurd (h y (List.mem_cons_self y ys) hc.1) hc.2
      · rfl
    rw [mergeList_cons, hy]
    exact ih (fun x hx => h x (List.mem_cons_of_mem _ hx))

theorem mergeList_idem {α : Type} (t : α → Bool) [DecidableEq α] (acc l : List α) :
    mergeList t (mergeList t acc l) l = mergeList t acc l :=
  mergeList_eq_self t (fun _ hx ht => mem_mergeList_self t acc hx ht)

theorem mem_mergeList_iff {α : Type} (t : α → Bool) [DecidableEq α] (acc l : List α) (x : α) :
    x ∈ mergeList t acc l ↔ x ∈ acc ∨ (x ∈ l ∧ t x = true) := by
  induction l generalizing acc with
  | nil => simp [mergeList]
  | cons y ys ih =>
    rw [mergeList_cons, ih]
    unfold addUnique
    by_cases hc : t y = true ∧ y ∉ acc
    · rw [if_pos hc]
      constructor
      · rintro (hm | hm)
        · rcases List.mem_append.mp hm with hm | hm
          · exact Or.inl hm
          · rcases List.mem_singleton.mp hm with rfl
            exact Or.inr ⟨List.mem_cons_self _ _, hc.1⟩
        · exact Or.inr ⟨List.mem_cons_of_mem _ hm.1, hm.2⟩
      · rintro (hm | ⟨hm, htx⟩)
        · exact Or.inl (List.mem_append_left _ hm)
        · rcases List.mem_cons.mp hm with rfl | hm
          · exact Or.inl (List.mem_append_right _ (List.mem_singleton.mpr rfl))
          · exact Or.inr ⟨hm, htx⟩
    · rw [if_neg hc]
      push_neg at hc
      constructor
      · rintro (hm | hm)
        · exact Or.inl hm
        · exact Or.inr ⟨List.mem_cons_of_mem _ hm.1, hm.2⟩
      · rintro (hm | ⟨hm, htx⟩)
        · exact Or.inl hm
        · rcases List.mem_cons.mp hm with rfl | hm
          · exact Or.inl (hc htx)
          · exact Or.inr ⟨hm, htx⟩

theorem mergeList_ne_nil {α : Type} (t : α → Bool) [DecidableEq α] {acc : List α} (l : List α)
    (h : acc ≠ []) : mergeList t acc l ≠ [] := by
  obtain ⟨a, ha⟩ := List.exists_mem_of_ne_nil acc h
  exact List.ne_nil_of_mem (mem_mergeList_of_mem t l ha)

theorem mergeStr_of_ne {acc : String} (new : String) (h : acc ≠ "") :
    mergeStr acc new = acc := by
  unfold mergeStr
  split
  · next hc => exact absurd hc.2 h
  · rfl

theorem mergeStr_idem (a n : String) : mergeStr (mergeStr a n) n = mergeStr a n := by
  unfold mergeStr
  split_ifs <;> simp_all

theorem mergeMaxQ_idem (a n : Option ℚ) : mergeMaxQ (mergeMaxQ a n) n = mergeMaxQ a n := by
  rcases n with _ | x
  · rfl
  · rcases a with _ | y
    · simp [mergeMaxQ, lt_irrefl]
    · by_cases h : x > y
      · simp [mergeMaxQ, h, lt_irrefl]
      · simp [mergeMaxQ, h]

theorem mergeMaxZ_idem (a n : Option Int) : mergeMaxZ (mergeMaxZ a n) n = mergeMaxZ a n := by
  rcases n with _ | x
  · rfl
  · rcases a with _ | y
    · simp [mergeMaxZ, lt_irrefl]
    · by_cases h : x > y
      · simp [mergeMaxZ, h, lt_irrefl]
      · simp [mergeMaxZ, h]

theorem mergeFounders_cons (acc : List Founder) (y : Founder) (ys : List Founder) :
    mergeFounders acc (y :: ys) = mergeFounders (addFounder acc y) ys := rfl

theorem mem_addFounder {a : List Founder} {x : Founder} (f : Founder) (hx : x ∈ a) :
    x ∈ addFounder a f := by
  unfold addFounder
  split
  · exact List.mem_append_left _ hx
  · exact hx

theorem mem_mergeFounders_of_mem {acc : List Founder} {x : Founder} (l : List Founder)
    (hx : x ∈ acc) : x ∈ mergeFounders acc l := by
  induction l generalizing acc with
  | nil => exact hx
  | cons y ys ih => exact ih (mem_addFounder y hx)

theorem mergeFounders_name_covered (acc l : List Founder) (f : Founder) (hf : f ∈ l)
    (hn : f.name ≠ "") : ∃ g ∈ mergeFounders acc l, g.name = f.name := by
  induction l generalizing acc with
  | nil => cases hf
  | cons y ys ih =>
    rcases List.mem_cons.mp hf with rfl | h
    · by_cases hc : f.name ≠ "" ∧ ¬ (acc.any fun g => g.name = f.name)
      · have hmem : f ∈ addFounder acc f := by
          unfold addFounder
          rw [if_pos hc]
          exact List.mem_append_right _ (List.mem_singleton.mpr rfl)
        exact ⟨f, mem_mergeFounders_of_mem ys hmem, rfl⟩
      · push_neg at hc
        have hany := hc hn
        rw [List.any_eq_true] at hany
        obtain ⟨g, hg, hgname⟩ := hany
        exact ⟨g, mem_mergeFounders_of_mem ys (mem_addFounder _ hg),
               of_decide_eq_true hgname⟩
    · exact ih _ h

theorem mergeFounders_eq_self {acc l : List Founder}
    (h : ∀ f ∈ l, f.name ≠ "" → ∃ g ∈ acc, g.name = f.name) :
    mergeFounders acc l = acc := by
  induction l with
  | nil => rfl
  | cons y ys ih =>
    have hy : addFounder acc y = acc := by
      unfold addFounder
      split
      · next hc =>
        obtain ⟨g, hg, he⟩ := h y (List.mem_cons_self y ys) hc.1
        exact absurd (List.any_eq_true.mpr ⟨g, hg, decide_eq_true he⟩) hc.2
      · rfl
    rw [mergeFounders_cons, hy]
    exact ih (fun f hf => h f (List.mem_cons_of_mem _ hf))

theorem mergeFounders_idem (acc l : List Founder) :
    mergeFounders (mergeFounders acc l) l = mergeFounders acc l :=
  mergeFounders_eq_self (fun f hf hn => mergeFounders_name_covered acc l f hf hn)

/-! ## dict.update lemmas -/

/-- The value a key `k` holds after all writes in `n`, starting from `v`. -/
def finalVal (n : List (String × String)) (k : String) (v : String) : String :=
  n.foldl (fun w kv => if kv.1 = k then kv.2 else w) v

theorem finalVal_cons (kv : String × String) (t : List (String × String)) (k v : String) :
    finalVal (kv :: t) k v = finalVal t k (if kv.1 = k then kv.2 else v) := rfl

theorem finalVal_irrel {n : List (String × String)} {k : String}
    (hk : k ∈ n.map Prod.fst) (v w : String) : finalVal n k v = finalVal n k w := by
  induction n with
  | nil => simp at hk
  | cons kv t ih =>
    rw [finalVal_cons, finalVal_cons]
    by_cases h : kv.1 = k
    · rw [if_pos h, if_pos h]
    · rw [if_neg h, if_neg h]
      have hk' : k ∈ t.map Prod.fst := by
        rw [List.map_cons] at hk
        rcases List.mem_cons.mp hk with h1 | h1
        · exact absurd h1.symm h
        · exact h1
      exact ih hk'

theorem finalVal_not_mem {n : List (String × String)} {k : String}
    (hk : k ∉ n.map Prod.fst) (v : String) : finalVal n k v = v := by
  induction n with
  | nil => rfl
  | cons kv t ih =>
    have h1 : kv.1 ≠ k := fun he => hk (by simp [he])
    have h2 : k ∉ t.map Prod.fst := fun hm => hk (by simp [hm])
    rw [finalVal_cons, if_neg h1]
    exact ih h2

theorem dictUpdate_cons (a : List (String × String)) (kv : String × String)
    (t : List (String × String)) : dictUpdate a (kv :: t) = dictUpdate (updateKey a kv) t := rfl

theorem updateKey_of_mem {a : List (String × String)} {kv : String × String}
    (h : kv.1 ∈ a.map Prod.fst) :
    updateKey a kv = a.map (fun p => (p.1, if p.1 = kv.1 then kv.2 else p.2)) := by
  unfold updateKey
  rw [if_pos h]
  refine List.map_congr_left (fun p _ => ?_)
  by_cases hp : p.1 = kv.1
  · rw [if_pos hp, if_pos hp]
  · rw [if_neg hp, if_neg hp]

theorem keys_updateKey_map (a : List (String × String)) (kv : String × String) :
    (a.map (fun p => if p.1 = kv.1 then (p.1, kv.2) else p)).map Prod.fst
      = a.map Prod.fst := by
  rw [List.map_map]
  refine List.map_congr_left (fun p _ => ?_)
  by_cases hp : p.1 = kv.1 <;> simp [Function.comp, hp]

theorem keys_updateKey_sub {a : List (String × String)} (kv : String × String) {k : String}
    (h : k ∈ a.map Prod.fst) : k ∈ (updateKey a kv).map Prod.fst := by
  unfold updateKey
  split
  · rw [keys_updateKey_map]
    exact h
  · rw [List.map_append]
    exact List.mem_append_left _ h

theorem key_mem_updateKey (a : List (String × String)) (kv : String × String) :
    kv.1 ∈ (updateKey a kv).map Prod.fst := by
  unfold updateKey
  split
  · next h =>
    rw [keys_updateKey_map]
    exact h
  · rw [List.map_append]
    exact List.mem_append_right _ (by simp)

theorem keys_dictUpdate_sub {a : List (String × String)} (n : List (String × String))
    {k : String} (h : k ∈ a.map Prod.fst) : k ∈ (dictUpdate a n).map Prod.fst := by
  induction n generalizing a with
  | nil => exact h
  | cons kv t ih => exact ih (keys_updateKey_sub kv h)

theorem keys_dictUpdate_mem (a : List (String × String)) {n : List (String × String)}
    {kv : String × String} (h : kv ∈ n) : kv.1 ∈ (dictUpdate a n).map Prod.fst := by
  induction n generalizing a with
  | nil => cases h
  | cons kw t ih =>
    rcases List.mem_cons.mp h with rfl | h1
    · exact keys_dictUpdate_sub t (key_mem_updateKey a kv)
    · exact ih _ h1

theorem keys_pair_map (a : List (String × String)) (f : String × String → String) :
    (a.map (fun p => (p.1, f p))).map Prod.fst = a.map Prod.fst := by
  rw [List.map_map]
  rfl

theorem dictUpdate_closed_form (n : List (String × String)) (a : List (String × String))
    (h : ∀ kv ∈ n, kv.1 ∈ a.map Prod.fst) :
    dictUpdate a n = a.map (fun p => (p.1, finalVal n p.1 p.2)) := by
  induction n generalizing a with
  | nil =>
    simp [dictUpdate, finalVal]
  | cons kv t ih =>
    have hpres := h kv (List.mem_cons_self kv t)
    rw [dictUpdate_cons, updateKey_of_mem hpres]
    have hkeys := keys_pair_map a (fun p => if p.1 = kv.1 then kv.2 else p.2)
    have ht : ∀ kw ∈ t, kw.1 ∈
        ((a.map (fun p => (p.1, if p.1 = kv.1 then kv.2 else p.2))).map Prod.fst) := by
      rw [hkeys]
      exact fun kw hkw => h kw (List.mem_cons_of_mem _ hkw)
    rw [ih _ ht, List.map_map]
    refine List.map_congr_left (fun p _ => ?_)
    simp only [Function.comp]
    rw [finalVal_cons]
    by_cases hp : p.1 = kv.1
    · simp [hp]
    · rw [if_neg hp, if_neg (fun he => hp he.symm)]

theorem dictUpdate_entry_stable {t : List (String × String)} {a : List (String × String)}
    {p : String × String} (hp : p ∈ dictUpdate a t) (hk : p.1 ∉ t.map Prod.fst) : p ∈ a := by
  induction t generalizing a with
  | nil => exact hp
  | cons kw t' ih =>
    have hk1 : p.1 ≠ kw.1 := fun he => hk (by simp [he])
    have hk2 : p.1 ∉ t'.map Prod.fst := fun hm => hk (by simp [hm])
    have hpa : p ∈ updateKey a kw := ih (by rwa [dictUpdate_cons] at hp) hk2
    unfold updateKey at hpa
    split at hpa
    · obtain ⟨q, hq, heq⟩ := List.mem_map.mp hpa
      by_cases hq1 : q.1 = kw.1
      · rw [if_pos hq1] at heq
        exact absurd (by rw [← heq]; exact hq1) hk1
      · rw [if_neg hq1] at heq
        rwa [← heq]
    · rcases List.mem_append.mp hpa with h1 | h1
      · exact h1
      · rcases List.mem_singleton.mp h1 with rfl
        exact absurd rfl hk1

theorem dictUpdate_entry_final (n : List (String × String)) (a : List (String × String))
    (p : String × String) (hp : p ∈ dictUpdate a n) : finalVal n p.1 p.2 = p.2 := by
  induction n generalizing a with
  | nil => rfl
  | cons kv t ih =>
    rw [dictUpdate_cons] at hp
    rw [finalVal_cons]
    by_cases hk : kv.1 = p.1
    · rw [if_pos hk]
      by_cases hmem : p.1 ∈ t.map Prod.fst
      · rw [finalVal_irrel hmem kv.2 p.2]
        exact ih _ hp
      · rw [finalVal_not_mem hmem]
        have hpa : p ∈ updateKey a kv := dictUpdate_entry_stable hp hmem
        unfold updateKey at hpa
        split at hpa
        · next hin =>
          obtain ⟨q, hq, heq⟩ := List.mem_map.mp hpa
          by_cases hq1 : q.1 = kv.1
          · rw [if_pos hq1] at heq
            rw [← heq]
          · rw [if_neg hq1] at heq
            exact absurd (by rw [heq]; exact hk.symm) hq1
        · next hin =>
          rcases List.mem_append.mp hpa with h1 | h1
          · have : kv.1 ∈ a.map Prod.fst := by
              rw [hk]
              exact List.mem_map_of_mem Prod.fst h1
            exact absurd this hin
          · rcases List.mem_singleton.mp h1 with rfl
            rfl
    · rw [if_neg hk]
      exact ih _ hp

theorem dictUpdate_idem (a n : List (String × String)) :
    dictUpdate (dictUpdate a n) n = dictUpdate a n := by
  rw [dictUpdate_closed_form n (dictUpdate a n) (fun kv hkv => keys_dictUpdate_mem a hkv)]
  conv_rhs => rw [← List.map_id (dictUpdate a n)]
  refine List.map_congr_left (fun p hp => ?_)
  rw [dictUpdate_entry_final n a p hp]
  simp

/-! ## Merge commutativity lemmas (from the empty profile) -/

theorem mergeList_empty_comm {α : Type} (t : α → Bool) [DecidableEq α] (a b : List α) (x : α) :
    x ∈ mergeList t (mergeList t [] a) b ↔ x ∈ mergeList t (mergeList t [] b) a := by
  rw [mem_mergeList_iff, mem_mergeList_iff, mem_mergeList_iff, mem_mergeList_iff]
  simp only [List.not_mem_nil, false_or]
  tauto

theorem mergeMaxQ_none_comm (a b : Option ℚ) :
    mergeMaxQ (mergeMaxQ none a) b = mergeMaxQ (mergeMaxQ none b) a := by
  rcases a with _ | x <;> rcases b with _ | y <;> simp [mergeMaxQ]
  rcases lt_trichotomy x y with h | h | h
  · simp [h, not_lt.mpr h.le]
  · simp [h, lt_irrefl]
  · simp [h, not_lt.mpr h.le]

theorem mergeMaxZ_none_comm (a b : Option Int) :
    mergeMaxZ (mergeMaxZ none a) b = mergeMaxZ (mergeMaxZ none b) a := by
  rcases a with _ | x <;> rcases b with _ | y <;> simp [mergeMaxZ]
  rcases lt_trichotomy x y with h | h | h
  · simp [h, not_lt.mpr h.le]
  · simp [h, lt_irrefl]
  · simp [h, not_lt.mpr h.le]

/-! ## Concrete profiles used as witnesses -/

/-- A profile satisfying the completeness predicate. -/
def completeProfile : BusinessInfo :=
  { emptyBusinessInfo with
    business_name := "Acme Roofing", phones := ["3035550100"]
    addresses := ["1 Main Street, Denver, CO"], services := ["Roof repair"]
    hours := "Mo-Fr 9-5" }

/-- A page info contributing one phone number. -/
def pageInfoA : BusinessInfo :=
  { emptyBusinessInfo with phones := ["3035550100"], hours := "Mo-Fr 8-6" }

/-- A page info contributing a different phone number. -/
def pageInfoB : BusinessInfo :=
  { emptyBusinessInfo with phones := ["3035550199"], hours := "24/7" }

/-! ## Claims C1, C3, C4, C7, C10 -/

/-- C1: the completeness predicate over a business-info profile is true iff
business_name, phones, addresses, services and hours are all non-empty, and
whenever any one of those five fields is empty the predicate is false, no
matter what the other fields hold. -/
theorem complete_iff_five_fields :
    (∀ info : BusinessInfo, is_business_info_complete info = true ↔
      (info.business_name ≠ "" ∧ info.phones ≠ [] ∧ info.addresses ≠ [] ∧
       info.services ≠ [] ∧ info.hours ≠ "")) ∧
    (∀ info : BusinessInfo,
      (info.business_name = "" ∨ info.phones = [] ∨ info.addresses = [] ∨
       info.services = [] ∨ info.hours = "") → is_business_info_complete info = false) := by
  constructor
  · intro info
    simp [is_business_info_complete, List.length_pos, and_assoc]
  · intro info h
    rcases h with h | h | h | h | h <;> simp [is_business_info_complete, h]

/-- Witness for C1 at concrete profiles: a fully-populated profile is
complete, and the profile missing business_name is not. -/
theorem complete_iff_five_fields_check :
    is_business_info_complete completeProfile = true ∧
    is_business_info_complete pageInfoA = false :=
  ⟨(complete_iff_five_fields.1 completeProfile).mpr (by decide),
   complete_iff_five_fields.2 pageInfoA (Or.inl (by decide))⟩

/-- C3: `merge_business_info` is idempotent — merging the same page info a
second time leaves the accumulated profile exactly as after the first merge. -/
theorem merge_business_info_idem (acc page : BusinessInfo) :
    merge_business_info (merge_business_info acc page) page
      = merge_business_info acc page := by
  simp only [merge_business_info, BusinessInfo.mk.injEq]
  refine ⟨?_, ?_, ?_, ?_, ?_, ?_, ?_, ?_, ?_, ?_, ?_, ?_, ?_, ?_, ?_, ?_, ?_,
          ?_, ?_, ?_, ?_, ?_, ?_, ?_, ?_, ?_, ?_, ?_⟩
  · exact mergeStr_idem _ _
  · exact mergeStr_idem _ _
  · exact mergeStr_idem _ _
  · exact mergeStr_idem _ _
  · exact mergeList_idem _ _ _
  · exact mergeMaxQ_idem _ _
  · exact mergeMaxZ_idem _ _
  · exact mergeList_idem _ _ _
  · exact mergeList_idem _ _ _
  · exact mergeList_idem _ _ _
  · exact mergeStr_idem _ _
  · exact mergeList_idem _ _ _
  · exact mergeList_idem _ _ _
  · exact mergeStr_idem _ _
  · exact mergeList_idem _ _ _
  · exact mergeList_idem _ _ _
  · exact mergeStr_idem _ _
  · exact mergeList_idem _ _ _
  · exact mergeList_idem _ _ _
  · cases acc.has_coupon <;> cases page.has_coupon <;> rfl
  · cases acc.has_emergency <;> cases page.has_emergency <;> rfl
  · cases acc.is_licensed <;> cases page.is_licensed <;> rfl
  · exact mergeStr_idem _ _
  · exact mergeStr_idem _ _
  · exact mergeFounders_idem _ _
  · exact dictUpdate_idem _ _
  · exact mergeStr_idem _ _
  · exact mergeList_idem _ _ _

/-- C4 counterexample: merging two pages into the empty profile in the two
orders does NOT yield the same value for the union field `phones` — the
union preserves first-seen insertion order, so the resulting lists differ. -/
theorem merge_from_empty_order_dependent :
    (merge_business_info (merge_business_info emptyBusinessInfo pageInfoA) pageInfoB).phones
      ≠ (merge_business_info (merge_business_info emptyBusinessInfo pageInfoB) pageInfoA).phones := by
  decide

/-- C4 (amended): merging two page infos into the empty profile in either
order yields the same SET of elements for each of the ten union fields
(addresses, areas_served, phones, emails, services, categories, images,
payment_methods, languages, meta_keywords) — though not necessarily in the
same order — and exactly the same values for the OR flags (has_coupon,
has_emergency, is_licensed) and the max fields (rating, review_count);
commutativity is not required for the first-wins scalar fields. -/
theorem merge_from_empty_comm_union_or_max (A B : BusinessInfo) :
    (∀ x, x ∈ (merge_business_info (merge_business_info emptyBusinessInfo A) B).addresses ↔
          x ∈ (merge_business_info (merge_business_info emptyBusinessInfo B) A).addresses) ∧
    (∀ x, x ∈ (merge_business_info (merge_business_info emptyBusinessInfo A) B).areas_served ↔
          x ∈ (merge_business_info (merge_business_info emptyBusinessInfo B) A).areas_served) ∧
    (∀ x, x ∈ (merge_business_info (merge_business_info emptyBusinessInfo A) B).phones ↔
          x ∈ (merge_business_info (merge_business_info emptyBusinessInfo B) A).phones) ∧
    (∀ x, x ∈ (merge_business_info (merge_business_info emptyBusinessInfo A) B).emails ↔
          x ∈ (merge_business_info (merge_business_info emptyBusinessInfo B) A).emails) ∧
    (∀ x, x ∈ (merge_business_info (merge_business_info emptyBusinessInfo A) B).services ↔
          x ∈ (merge_business_info (merge_business_info emptyBusinessInfo B) A).services) ∧
    (∀ x, x ∈ (merge_business_info (merge_business_info emptyBusinessInfo A) B).categories ↔
          x ∈ (merge_business_info (merge_business_info emptyBusinessInfo B) A).categories) ∧
    (∀ x, x ∈ (merge_business_info (merge_business_info emptyBusinessInfo A) B).images ↔
          x ∈ (merge_business_info (merge_business_info emptyBusinessInfo B) A).images) ∧
    (∀ x, x ∈ (merge_business_info (merge_business_info emptyBusinessInfo A) B).payment_methods ↔
          x ∈ (merge_business_info (merge_business_info emptyBusinessInfo B) A).payment_methods) ∧
    (∀ x, x ∈ (merge_business_info (merge_business_info emptyBusinessInfo A) B).languages ↔
          x ∈ (merge_business_info (merge_business_info emptyBusinessInfo B) A).languages) ∧
    (∀ x, x ∈ (merge_business_info (merge_business_info emptyBusinessInfo A) B).meta_keywords ↔
          x ∈ (merge_business_info (merge_business_info emptyBusinessInfo B) A).meta_keywords) ∧
    (merge_business_info (merge_business_info emptyBusinessInfo A) B).has_coupon
      = (merge_business_info (merge_business_info emptyBusinessInfo B) A).has_coupon ∧
    (merge_business_info (merge_business_info emptyBusinessInfo A) B).has_emergency
      = (merge_business_info (merge_business_info emptyBusinessInfo B) A).has_emergency ∧
    (merge_business_info (merge_business_info emptyBusinessInfo A) B).is_licensed
      = (merge_business_info (merge_business_info emptyBusinessInfo B) A).is_licensed ∧
    (merge_business_info (merge_business_info emptyBusinessInfo A) B).rating
      = (merge_business_info (merge_business_info emptyBusinessInfo B) A).rating ∧
    (merge_business_info (merge_business_info emptyBusinessInfo A) B).review_count
      = (merge_business_info (merge_business_info emptyBusinessInfo B) A).review_count := by
  simp only [merge_business_info, emptyBusinessInfo]
  refine ⟨fun x => mergeList_empty_comm _ _ _ x, fun x => mergeList_empty_comm _ _ _ x,
          fun x => mergeList_empty_comm _ _ _ x, fun x => mergeList_empty_comm _ _ _ x,
          fun x => mergeList_empty_comm _ _ _ x, fun x => mergeList_empty_comm _ _ _ x,
          fun x => mergeList_empty_comm _ _ _ x, fun x => mergeList_empty_comm _ _ _ x,
          fun x => mergeList_empty_comm _ _ _ x, fun x => mergeList_empty_comm _ _ _ x,
          ?_, ?_, ?_, mergeMaxQ_none_comm _ _, mergeMaxZ_none_comm _ _⟩
  · cases A.has_coupon <;> cases B.has_coupon <;> rfl
  · cases A.has_emergency <;> cases B.has_emergency <;> rfl
  · cases A.is_licensed <;> cases B.is_licensed <;> rfl

/-- C7 counterexample: "+123456789" holds only nine digits, yet the
normalizer keeps it because the leading `+` brings the total length to 10;
and an interior `+` is not stripped either. -/
theorem normalize_phone_counterexamples :
    normalize_phone "+123456789" = "+123456789" ∧
    ("+123456789".data.filter Char.isDigit).length = 9 ∧
    normalize_phone "12+34567890" = "12+34567890" := by
  decide

/-- C7 (amended): the normalizer strips every character that is neither a
digit nor `+` (keeping every `+`, wherever it occurs, not only a leading
one), and keeps the result exactly when its total length — digits plus all
`+` signs — is at least 10; otherwise it returns the empty string. -/
theorem normalize_phone_spec (p : String) :
    (10 ≤ (p.data.filter (fun c => c.isDigit || c = '+')).length →
      normalize_phone p = String.mk (p.data.filter (fun c => c.isDigit || c = '+'))) ∧
    ((p.data.filter (fun c => c.isDigit || c = '+')).length < 10 →
      normalize_phone p = "") := by
  unfold normalize_phone
  constructor <;> intro h
  · rw [if_pos]
    exact h
  · rw [if_neg]
    exact not_le.mpr h

/-- Witness for C7 (amended) at concrete inputs. -/
theorem normalize_phone_spec_check :
    normalize_phone "(303) 555-0100" = "3035550100" ∧ normalize_phone "555-0100" = "" := by
  constructor
  · rw [(normalize_phone_spec "(303) 555-0100").1 (by decide)]
    decide
  · exact (normalize_phone_spec "555-0100").2 (by decide)

/-- C10: completeness is monotone under merging — if the accumulated
profile is complete, it remains complete after merging any page info:
the merge never empties business_name or hours and never removes elements
from phones, addresses or services. -/
theorem complete_preserved_by_merge (acc page : BusinessInfo)
    (h : is_business_info_complete acc = true) :
    is_business_info_complete (merge_business_info acc page) = true := by
  simp only [is_business_info_complete, Bool.and_eq_true, decide_eq_true_eq,
    List.length_pos] at h ⊢
  obtain ⟨⟨⟨⟨h1, h2⟩, h3⟩, h4⟩, h5⟩ := h
  simp only [merge_business_info]
  exact ⟨⟨⟨⟨by rw [mergeStr_of_ne _ h1]; exact h1, mergeList_ne_nil _ _ h2⟩,
    mergeList_ne_nil _ _ h3⟩, mergeList_ne_nil _ _ h4⟩,
    by rw [mergeStr_of_ne _ h5]; exact h5⟩

/-- Witness for C10 at a concrete complete profile and page. -/
theorem complete_preserved_by_merge_check :
    is_business_info_complete (merge_business_info completeProfile pageInfoB) = true :=
  complete_preserved_by_merge completeProfile pageInfoB (by decide)

/-! ## Crawl loop invariants -/

theorem nodup_append_singleton {α : Type} (l : List α) (x : α) :
    (l ++ [x]).Nodup ↔ l.Nodup ∧ x ∉ l := by
  simp [List.nodup_append]

/-- The frontier/visited bookkeeping invariant of `scrape_priority_paths`:
the frontier and the enqueue history are duplicate-free, every fetched URL
was first marked visited, and every URL ever enqueued has either been
dequeued (resp. marked visited) or still sits on the frontier. -/
structure CrawlInv (s : CrawlState) : Prop where
  nodupToVisit : s.toVisit.Nodup
  nodupEnq : s.enqueuedEver.Nodup
  nodupFetched : s.fetched.Nodup
  fetchedVisited : ∀ u, u ∈ s.fetched → u ∈ s.visited
  enqVisited : ∀ u, u ∈ s.enqueuedEver → u ∈ s.visited ∨ u ∈ s.toVisit
  enqDequeued : ∀ u, u ∈ s.enqueuedEver → u ∈ s.dequeued ∨ u ∈ s.toVisit

theorem crawlInv_init (homepage : String) : CrawlInv (initCrawlState homepage) := by
  refine ⟨?_, ?_, ?_, ?_, ?_, ?_⟩ <;>
    simp [initCrawlState]

theorem enqueueLinks_inv (env : CrawlEnv) :
    ∀ (links : List String) (s : CrawlState), CrawlInv s →
      CrawlInv (enqueueLinks env s links) := by
  intro links
  induction links with
  | nil => exact fun s hs => hs
  | cons link rest ih =>
    intro s hs
    rw [enqueueLinks]
    split
    · exact ih s hs
    · split
      · exact ih s hs
      · split
        · -- excluded: mark visited, drop
          refine ih _ ⟨hs.nodupToVisit, hs.nodupEnq, hs.nodupFetched, ?_, ?_, hs.enqDequeued⟩
          · exact fun u hu => List.mem_append_left _ (hs.fetchedVisited u hu)
          · intro u hu
            rcases hs.enqVisited u hu with h | h
            · exact Or.inl (List.mem_append_left _ h)
            · exact Or.inr h
        · -- enqueue
          next hdom hmem hexc =>
          have hnv : link ∉ s.visited := fun h => hmem (Or.inl h)
          have hnq : link ∉ s.toVisit := fun h => hmem (Or.inr h)
          have hne : link ∉ s.enqueuedEver := by
            intro h
            rcases hs.enqVisited link h with h1 | h1
            · exact hnv h1
            · exact hnq h1
          refine ih _ ⟨?_, ?_, hs.nodupFetched, hs.fetchedVisited, ?_, ?_⟩
          · exact (nodup_append_singleton _ _).mpr ⟨hs.nodupToVisit, hnq⟩
          · exact (nodup_append_singleton _ _).mpr ⟨hs.nodupEnq, hne⟩
          · intro u hu
            rcases List.mem_append.mp hu with h | h
            · rcases hs.enqVisited u h with h1 | h1
              · exact Or.inl h1
              · exact Or.inr (List.mem_append_left _ h1)
            · rcases List.mem_singleton.mp h with rfl
              exact Or.inr (List.mem_append_right _ (by simp))
          · intro u hu
            rcases List.mem_append.mp hu with h | h
            · rcases hs.enqDequeued u h with h1 | h1
              · exact Or.inl h1
              · exact Or.inr (List.mem_append_left _ h1)
            · rcases List.mem_singleton.mp h with rfl
              exact Or.inr (List.mem_append_right _ (by simp))

theorem crawlInv_dequeue_mem {s : CrawlState} {url : String} {rest : List String}
    (hs : CrawlInv s) (htv : s.toVisit = url :: rest) (hv : url ∈ s.visited) :
    CrawlInv { s with toVisit := rest, dequeued := s.dequeued ++ [url] } := by
  refine ⟨?_, hs.nodupEnq, hs.nodupFetched, hs.fetchedVisited, ?_, ?_⟩
  · have := hs.nodupToVisit
    rw [htv] at this
    exact this.of_cons
  · intro u hu
    rcases hs.enqVisited u hu with h | h
    · exact Or.inl h
    · rw [htv] at h
      rcases List.mem_cons.mp h with rfl | h
      · exact Or.inl hv
      · exact Or.inr h
  · intro u hu
    rcases hs.enqDequeued u hu with h | h
    · exact Or.inl (List.mem_append_left _ h)
    · rw [htv] at h
      rcases List.mem_cons.mp h with rfl | h
      · exact Or.inl (List.mem_append_right _ (by simp))
      · exact Or.inr h

theorem crawlInv_dequeue_new {s : CrawlState} {url : String} {rest : List String}
    (hs : CrawlInv s) (htv : s.toVisit = url :: rest) :
    CrawlInv { s with toVisit := rest, dequeued := s.dequeued ++ [url],
                      visited := s.visited ++ [url] } := by
  refine ⟨?_, hs.nodupEnq, hs.nodupFetched, ?_, ?_, ?_⟩
  · have := hs.nodupToVisit
    rw [htv] at this
    exact this.of_cons
  · exact fun u hu => List.mem_append_left _ (hs.fetchedVisited u hu)
  · intro u hu
    rcases hs.enqVisited u hu with h | h
    · exact Or.inl (List.mem_append_left _ h)
    · rw [htv] at h
      rcases List.mem_cons.mp h with rfl | h
      · exact Or.inl (List.mem_append_right _ (by simp))
      · exact Or.inr h
  · intro u hu
    rcases hs.enqDequeued u hu with h | h
    · exact Or.inl (List.mem_append_left _ h)
    · rw [htv] at h
      rcases List.mem_cons.mp h with rfl | h
      · exact Or.inl (List.mem_append_right _ (by simp))
      · exact Or.inr h

theorem crawlInv_fetch {s : CrawlState} {url : String}
    (hs : CrawlInv s) (hv : url ∈ s.visited) (hnf : url ∉ s.fetched) :
    CrawlInv { s with fetched := s.fetched ++ [url] } := by
  refine ⟨hs.nodupToVisit, hs.nodupEnq,
          (nodup_append_singleton _ _).mpr ⟨hs.nodupFetched, hnf⟩, ?_,
          hs.enqVisited, hs.enqDequeued⟩
  intro u hu
  rcases List.mem_append.mp hu with h | h
  · exact hs.fetchedVisited u h
  · rcases List.mem_singleton.mp h with rfl
    exact hv

theorem crawlLoop_inv (env : CrawlEnv) (maxPages : Nat) :
    ∀ (fuel : Nat) (s : CrawlState), CrawlInv s →
      CrawlInv (crawlLoop env maxPages fuel s).1 ∧
      ((crawlLoop env maxPages fuel s).2 = StopReason.complete →
        (crawlLoop env maxPages fuel s).1.toVisit = []) := by
  intro fuel
  induction fuel with
  | zero =>
    intro s hs
    exact ⟨hs, fun h => absurd h (by simp [crawlLoop])⟩
  | succ fuel ih =>
    intro s hs
    rw [crawlLoop]
    split
    · exact ⟨hs, fun h => absurd h (by simp)⟩
    · rcases htv : s.toVisit with _ | ⟨url, rest⟩
      · refine ⟨hs, fun _ => htv⟩
      · dsimp only
        split
        · -- already visited: skip
          next hv => exact ih _ (crawlInv_dequeue_mem hs htv hv)
        · next hv =>
          split
          · -- excluded: mark visited and skip
            exact ih _ (crawlInv_dequeue_new hs htv)
          · have hnf : url ∉ s.fetched := fun h => hv (hs.fetchedVisited url h)
            have hs2f := crawlInv_fetch (crawlInv_dequeue_new hs htv)
              (List.mem_append_right _ (by simp)) hnf
            rcases hf : env.fetch url with _ | page
            · -- fetch error: continue
              exact ih _ hs2f
            · dsimp only
              split
              · -- page had schema: business merged, pages incremented
                split
                · next hdone =>
                  exact ⟨⟨hs2f.nodupToVisit, hs2f.nodupEnq, hs2f.nodupFetched,
                          hs2f.fetchedVisited, hs2f.enqVisited, hs2f.enqDequeued⟩,
                         fun _ => hdone.2⟩
                · exact ih _ (enqueueLinks_inv env page.links _
                    ⟨hs2f.nodupToVisit, hs2f.nodupEnq, hs2f.nodupFetched,
                     hs2f.fetchedVisited, hs2f.enqVisited, hs2f.enqDequeued⟩)
              · split
                · next hdone =>
                  exact ⟨⟨hs2f.nodupToVisit, hs2f.nodupEnq, hs2f.nodupFetched,
                          hs2f.fetchedVisited, hs2f.enqVisited, hs2f.enqDequeued⟩,
                         fun _ => hdone.2⟩
                · exact ih _ (enqueueLinks_inv env page.links _
                    ⟨hs2f.nodupToVisit, hs2f.nodupEnq, hs2f.nodupFetched,
                     hs2f.fetchedVisited, hs2f.enqVisited, hs2f.enqDequeued⟩)

/-! ## Claims C2 and C8 -/

/-- C2: the crawl loop never stops for completeness while the frontier is
non-empty.  Whenever a crawl run returns the completeness stop reason, the
final frontier is empty, and every URL that was ever enqueued (including
all URLs queued at the moment the profile became complete) has been
dequeued and handled. -/
theorem crawl_complete_drains_frontier (env : CrawlEnv) (maxPages fuel : Nat) (hp : String)
    (h : (crawlLoop env maxPages fuel (initCrawlState hp)).2 = StopReason.complete) :
    (crawlLoop env maxPages fuel (initCrawlState hp)).1.toVisit = [] ∧
    ∀ u ∈ (crawlLoop env maxPages fuel (initCrawlState hp)).1.enqueuedEver,
      u ∈ (crawlLoop env maxPages fuel (initCrawlState hp)).1.dequeued := by
  obtain ⟨hinv, hcomp⟩ := crawlLoop_inv env maxPages fuel (initCrawlState hp) (crawlInv_init hp)
  have hempty := hcomp h
  refine ⟨hempty, fun u hu => ?_⟩
  rcases hinv.enqDequeued u hu with h1 | h1
  · exact h1
  · rw [hempty] at h1
    cases h1

/-- A page supplying every required business-info field at once. -/
def completePage : PageData :=
  { hasSchema := true, info := completeProfile, links := [] }

/-- A one-page environment whose homepage immediately completes the profile. -/
def oneShotEnv : CrawlEnv :=
  { fetch := fun u => if u = "https://example.com/" then some completePage else none
    excluded := fun _ => false
    sameDomain := fun _ => true }

/-- Witness for C2: a concrete crawl that stops for completeness, with an
empty final frontier and every enqueued URL dequeued. -/
theorem crawl_complete_drains_frontier_check :
    (crawlLoop oneShotEnv 1000 5 (initCrawlState "https://example.com/")).1.toVisit = [] ∧
    ∀ u ∈ (crawlLoop oneShotEnv 1000 5 (initCrawlState "https://example.com/")).1.enqueuedEver,
      u ∈ (crawlLoop oneShotEnv 1000 5 (initCrawlState "https://example.com/")).1.dequeued :=
  crawl_complete_drains_frontier oneShotEnv 1000 5 "https://example.com/" (by decide)

/-- C8: within one crawl no URL is passed to the fetcher more than once,
no URL is ever enqueued into the frontier twice (link targets are guarded
against both the visited set and the current frontier), and every fetched
URL had been marked visited first — so a dequeued URL already in the
visited set is never fetched again. -/
theorem crawl_no_refetch_no_requeue (env : CrawlEnv) (maxPages fuel : Nat) (hp : String) :
    (crawlLoop env maxPages fuel (initCrawlState hp)).1.fetched.Nodup ∧
    (crawlLoop env maxPages fuel (initCrawlState hp)).1.enqueuedEver.Nodup ∧
    ∀ u ∈ (crawlLoop env maxPages fuel (initCrawlState hp)).1.fetched,
      u ∈ (crawlLoop env maxPages fuel (initCrawlState hp)).1.visited := by
  obtain ⟨hinv, -⟩ := crawlLoop_inv env maxPages fuel (initCrawlState hp) (crawlInv_init hp)
  exact ⟨hinv.nodupFetched, hinv.nodupEnq, hinv.fetchedVisited⟩

/-! ## String prefix helper lemmas -/

theorem isPrefixOf_iff_append {α : Type} [DecidableEq α] (p : List α) :
    ∀ l : List α, p.isPrefixOf l = true ↔ ∃ t, p ++ t = l := by
  induction p with
  | nil =>
    intro l
    simp [List.isPrefixOf]
  | cons a as ih =>
    intro l
    cases l with
    | nil =>
      simp [List.isPrefixOf]
    | cons b bs =>
      rw [List.isPrefixOf_cons₂]
      simp only [Bool.and_eq_true, beq_iff_eq, ih]
      constructor
      · rintro ⟨rfl, t, rfl⟩
        exact ⟨t, rfl⟩
      · rintro ⟨t, he⟩
        injection he with h1 h2
        exact ⟨h1, t, h2⟩

theorem chStartsWith_slash_of_two {s : String} (h : chStartsWith s "//" = true) :
    chStartsWith s "/" = true := by
  unfold chStartsWith at h ⊢
  obtain ⟨t, ht⟩ := (isPrefixOf_iff_append _ _).mp h
  rw [(isPrefixOf_iff_append _ _)]
  exact ⟨'/' :: t, ht⟩

/-! ## Claim C5 -/

/-- C5 counterexample: with the exclude list `["/"]`, the path `/about` is
NOT excluded — the pattern `/` does not act as a universal prefix for the
exclusion classifier, contradicting the claimed asymmetry. -/
theorem exclude_root_pattern_not_universal :
    is_path_excluded "https://a.com/about" ["/"] = false := by
  decide

/-- C5 (amended): both classifiers treat the literal pattern `/` as an
exact-root matcher, symmetrically for all ordinary paths.  With `["/"]` as
priority list, a URL is priority iff its normalized path is exactly `/`;
with `["/"]` as exclude list, a URL is excluded iff its normalized path is
exactly `/` or begins with a double slash (the degenerate `startswith
(normalized_exclude + "/")` case) — in particular `/about` is not excluded
while the root is, and the root is priority while `/about` is not. -/
theorem root_pattern_exact_match_both_classifiers :
    (∀ url : String, contains_priority_path url ["/"]
        = decide (normalizedPathOf url = "/")) ∧
    (∀ url : String, is_path_excluded url ["/"]
        = (decide (normalizedPathOf url = "/") ||
           chStartsWith (normalizedPathOf url) "//")) ∧
    contains_priority_path "https://a.com/" ["/"] = true ∧
    contains_priority_path "https://a.com/about" ["/"] = false ∧
    is_path_excluded "https://a.com/" ["/"] = true := by
  refine ⟨?_, ?_, by decide, by decide, by decide⟩
  · intro url
    by_cases h : normalizedPathOf url = "/" <;>
      simp [contains_priority_path, h]
  · intro url
    unfold is_path_excluded
    simp only [List.any_cons, List.any_nil, Bool.or_false, if_pos rfl]
    by_cases h : normalizedPathOf url = "/"
    · simp [h, chStartsWith]
    · simp only [h, decide_False, Bool.false_or]
      cases h2 : chStartsWith (normalizedPathOf url) "//"
      · simp [h, h2]
      · have h3 : chStartsWith (normalizedPathOf url) "/" = true :=
          chStartsWith_slash_of_two h2
        simp [h, h2, h3]

/-! ## Claim C6 -/

theorem takeWhile_append_colon (sd : List Char) (t : List Char) (hnc : ':' ∉ sd) :
    (sd ++ ':' :: t).takeWhile (fun c => c ≠ ':') = sd := by
  induction sd with
  | nil => simp [List.takeWhile_cons]
  | cons a l ih =>
    have ha : a ≠ ':' := by
      intro he
      subst he
      exact hnc (List.mem_cons_self _ _)
    have ih2 := ih (fun hm => hnc (List.mem_cons_of_mem _ hm))
    rw [List.cons_append, List.takeWhile_cons,
        if_pos (by simp [ha] : decide (a ≠ ':') = true), ih2]

/-- Rejection lemma for `normalize_url`: a (stripped) reference of the form
`scheme:rest`, whose scheme contains no colon, does not start with `#`,
`h` or `/`, and is neither `http` nor `https`, is rejected. -/
theorem normalize_url_scheme_rejected (base ref : String) (c : Char) (cs t : List Char)
    (hdata : (pyStrip ref).data = (c :: cs) ++ ':' :: t)
    (hnc : ':' ∉ c :: cs)
    (hc1 : c ≠ '#') (hc2 : c ≠ 'h') (hc3 : c ≠ '/')
    (hs1 : String.mk (c :: cs) ≠ "http") (hs2 : String.mk (c :: cs) ≠ "https") :
    normalize_url base (some ref) = none := by
  simp only [normalize_url]
  by_cases h0 : ref = ""
  · rw [if_pos h0]
  · rw [if_neg h0]
    have hne : pyStrip ref ≠ "" := by
      intro he
      rw [he] at hdata
      rw [show ("" : String).data = [] from rfl] at hdata
      exact List.cons_ne_nil _ _ hdata.symm
    rw [if_neg hne]
    have hhash : ¬ (chStartsWith (pyStrip ref) "#" = true) := by
      intro hp
      unfold chStartsWith at hp
      rw [show ("#" : String).data = ['#'] from rfl, hdata, List.cons_append,
          List.isPrefixOf_cons₂] at hp
      simp [beq_iff_eq] at hp
      exact hc1 hp.symm
    rw [if_neg hhash]
    have hcontains : (pyStrip ref).data.contains ':' = true := by
      rw [hdata]
      exact List.elem_iff.mpr
        (List.mem_append_right _ (List.mem_cons_self _ _))
    have hnoweb : ¬ (chStartsWith (pyStrip ref) "http://" = true ∨
        chStartsWith (pyStrip ref) "https://" = true ∨
        chStartsWith (pyStrip ref) "/" = true) := by
      rintro (hp | hp | hp)
      · unfold chStartsWith at hp
        rw [show ("http://" : String).data = ['h', 't', 't', 'p', ':', '/', '/'] from rfl,
            hdata, List.cons_append, List.isPrefixOf_cons₂] at hp
        simp [beq_iff_eq] at hp
        exact hc2 hp.1.symm
      · unfold chStartsWith at hp
        rw [show ("https://" : String).data = ['h', 't', 't', 'p', 's', ':', '/', '/'] from rfl,
            hdata, List.cons_append, List.isPrefixOf_cons₂] at hp
        simp [beq_iff_eq] at hp
        exact hc2 hp.1.symm
      · unfold chStartsWith at hp
        rw [show ("/" : String).data = ['/'] from rfl, hdata, List.cons_append,
            List.isPrefixOf_cons₂] at hp
        simp [beq_iff_eq] at hp
        exact hc3 hp.symm
    rw [if_pos ⟨hcontains, hnoweb⟩]
    have hscheme : schemeOf (pyStrip ref) = String.mk (c :: cs) := by
      unfold schemeOf
      rw [hdata, takeWhile_append_colon _ _ hnc]
    rw [if_pos ⟨by rw [hscheme]; exact hs1, by rw [hscheme]; exact hs2⟩]

/-- C6: `normalize_url` rejects every fragment-only reference (whatever the
base URL is) and every reference with a mailto:, tel: or javascript:
scheme; on success it strips the fragment and one trailing slash unless
the path is the root, so `normalize("https://a.com", "/x/") =
"https://a.com/x"`. -/
theorem normalize_url_rejections_and_trailing_slash :
    (∀ base ref : String, chStartsWith (pyStrip ref) "#" = true →
        normalize_url base (some ref) = none) ∧
    (∀ base ref : String,
        (chStartsWith (pyStrip ref) "mailto:" = true ∨
         chStartsWith (pyStrip ref) "tel:" = true ∨
         chStartsWith (pyStrip ref) "javascript:" = true) →
        normalize_url base (some ref) = none) ∧
    normalize_url "https://a.com" (some "/x/") = some "https://a.com/x" := by
  refine ⟨?_, ?_, by decide⟩
  · intro base ref h
    simp only [normalize_url]
    by_cases h0 : ref = ""
    · rw [if_pos h0]
    · rw [if_neg h0]
      by_cases h1 : pyStrip ref = ""
      · rw [if_pos h1]
      · rw [if_neg h1, if_pos h]
  · intro base ref h
    rcases h with h | h | h
    · obtain ⟨t, ht⟩ := (isPrefixOf_iff_append _ _).mp h
      refine normalize_url_scheme_rejected base ref 'm' ['a', 'i', 'l', 't', 'o'] t ?_
        (by decide) (by decide) (by decide) (by decide) (by decide) (by decide)
      rw [← ht]
      rfl
    · obtain ⟨t, ht⟩ := (isPrefixOf_iff_append _ _).mp h
      refine normalize_url_scheme_rejected base ref 't' ['e', 'l'] t ?_
        (by decide) (by decide) (by decide) (by decide) (by decide) (by decide)
      rw [← ht]
      rfl
    · obtain ⟨t, ht⟩ := (isPrefixOf_iff_append _ _).mp h
      refine normalize_url_scheme_rejected base ref 'j'
        ['a', 'v', 'a', 's', 'c', 'r', 'i', 'p', 't'] t ?_
        (by decide) (by decide) (by decide) (by decide) (by decide) (by decide)
      rw [← ht]
      rfl

/-- Witness for C6 at concrete references: a fragment-only link, the three
rejected schemes, and the trailing-slash example. -/
theorem normalize_url_rejections_check :
    normalize_url "https://a.com" (some "#top") = none ∧
    normalize_url "https://a.com" (some "mailto:bob@x.com") = none ∧
    normalize_url "https://a.com" (some "tel:+13035550100") = none ∧
    normalize_url "https://a.com" (some "javascript:void(0)") = none :=
  ⟨normalize_url_rejections_and_trailing_slash.1 "https://a.com" "#top" (by decide),
   normalize_url_rejections_and_trailing_slash.2.1 "https://a.com" "mailto:bob@x.com"
     (Or.inl (by decide)),
   normalize_url_rejections_and_trailing_slash.2.1 "https://a.com" "tel:+13035550100"
     (Or.inr (Or.inl (by decide))),
   normalize_url_rejections_and_trailing_slash.2.1 "https://a.com" "javascript:void(0)"
     (Or.inr (Or.inr (by decide)))⟩

/-! ## Claim C9 -/

/-- A profile whose addresses were already populated by the schema pass. -/
def schemaFilledInfo : BusinessInfo :=
  { emptyBusinessInfo with addresses := ["1 Schema Street, Denver, CO 80014"] }

/-- Page signals whose only content is an address-like tag text. -/
def addressSignals : HtmlSignals :=
  { textPhones := [], textEmails := [], title := "", logoCandidate := ""
    quoteCandidate := "", socialLinks := [], couponHit := false
    emergencyHit := false, emergencyKw24 := false, licenseHit := false
    licenseNumber := "", addressTexts := ["500 Footer Avenue, Boulder, CO"] }

/-- C9 counterexample: the markup/text pass does NOT leave an
already-populated `addresses` field unchanged — the final address scrape
appends unseen address-tag texts with no emptiness guard. -/
theorem html_pass_changes_populated_addresses :
    (extract_from_html addressSignals schemaFilledInfo).addresses
      ≠ schemaFilledInfo.addresses := by
  decide

/-- C9 (amended): the markup/text pass fills only still-empty fields for
phones, emails, business_name, logo, quote_url, the coupon/emergency/
licensed flags and hours — whenever one of those is already populated the
pass leaves it unchanged — and never touches the schema-only fields; but
this does not hold for `addresses` (address-tag texts are appended
regardless of prior contents), nor for `social_media` and `images`, which
can also grow. -/
theorem html_pass_fills_only_empty_guarded_fields (sig : HtmlSignals) (info : BusinessInfo) :
    (info.phones ≠ [] → (extract_from_html sig info).phones = info.phones) ∧
    (info.emails ≠ [] → (extract_from_html sig info).emails = info.emails) ∧
    (info.business_name ≠ "" →
      (extract_from_html sig info).business_name = info.business_name) ∧
    (info.logo ≠ "" → (extract_from_html sig info).logo = info.logo ∧
      (extract_from_html sig info).images = info.images) ∧
    (info.quote_url ≠ "" → (extract_from_html sig info).quote_url = info.quote_url) ∧
    (info.has_coupon = true → (extract_from_html sig info).has_coupon = true) ∧
    (info.has_emergency = true → (extract_from_html sig info).has_emergency = true ∧
      (extract_from_html sig info).hours = info.hours) ∧
    (info.hours ≠ "" → (extract_from_html sig info).hours = info.hours) ∧
    (info.is_licensed = true → (extract_from_html sig info).is_licensed = true ∧
      (extract_from_html sig info).license_number = info.license_number) ∧
    (extract_from_html sig info).description = info.description ∧
    (extract_from_html sig info).rating = info.rating ∧
    (extract_from_html sig info).services = info.services := by
  refine ⟨?_, ?_, ?_, ?_, ?_, ?_, ?_, ?_, ?_, ?_, ?_, ?_⟩
  · intro h
    simp [extract_from_html, h]
  · intro h
    simp [extract_from_html, h]
  · intro h
    simp [extract_from_html, h]
  · intro h
    simp [extract_from_html, h]
  · intro h
    simp [extract_from_html, h]
  · intro h
    simp [extract_from_html, h]
  · intro h
    simp [extract_from_html, h]
  · intro h
    by_cases h2 : info.has_emergency = true
    · simp [extract_from_html, h, h2]
    · simp [extract_from_html, h, h2]
      split <;> rfl
  · intro h
    simp [extract_from_html, h]
  · simp [extract_from_html]
  · simp [extract_from_html]
  · simp [extract_from_html]

/-- A profile with every guarded field already populated. -/
def richInfo : BusinessInfo :=
  { emptyBusinessInfo with
    business_name := "Acme", phones := ["3035550100"], emails := ["a@b.com"]
    logo := "https://a.com/logo.png", quote_url := "https://a.com/quote"
    hours := "Mo-Fr 9-5", has_coupon := true, has_emergency := true
    is_licensed := true, license_number := "L-1"
    addresses := ["1 Main Street Denver"] }

/-- Signals that would overwrite every guarded field if unguarded. -/
def richSignals : HtmlSignals :=
  { textPhones := ["7205550100"], textEmails := ["x@y.com"], title := "Other Title"
    logoCandidate := "https://a.com/other.png"
    quoteCandidate := "https://a.com/contact"
    socialLinks := [("facebook", "https://facebook.com/acme")], couponHit := true
    emergencyHit := true, emergencyKw24 := true, licenseHit := true
    licenseNumber := "L-2", addressTexts := ["500 Footer Avenue, Boulder"] }

/-- Witness for C9 (amended) at a fully-populated profile. -/
theorem html_pass_fills_only_empty_check :
    (extract_from_html richSignals richInfo).phones = richInfo.phones ∧
    (extract_from_html richSignals richInfo).emails = richInfo.emails ∧
    (extract_from_html richSignals richInfo).business_name = richInfo.business_name ∧
    (extract_from_html richSignals richInfo).logo = richInfo.logo ∧
    (extract_from_html richSignals richInfo).quote_url = richInfo.quote_url ∧
    (extract_from_html richSignals richInfo).has_coupon = true ∧
    (extract_from_html richSignals richInfo).has_emergency = true ∧
    (extract_from_html richSignals richInfo).hours = richInfo.hours ∧
    (extract_from_html richSignals richInfo).is_licensed = true := by
  obtain ⟨h1, h2, h3, h4, h5, h6, h7, h8, h9, -, -, -⟩ :=
    html_pass_fills_only_empty_guarded_fields richSignals richInfo
  exact ⟨h1 (by decide), h2 (by decide), h3 (by decide), (h4 (by decide)).1,
         h5 (by decide), h6 (by decide), (h7 (by decide)).1, h8 (by decide),
         (h9 (by decide)).1⟩
